import Mathlib

/-!
Shallow embedding of the MacroPad firmware (`code.py`): the NeoKey satellite
resilience manager, the button debouncer, the display/LED power manager, the
macro-sequence interpreter, the NeoKey button handler, the encoder-driven
application switch, and the empty-application startup guard.  Calls to the
output-device boundary (keyboard, consumer control, mouse, tone, pixels) are
modelled as events collected in a trace; time stamps, delays and brightness
levels are rationals.
-/

namespace MacroPadFw

/-- Events at the output-device boundary emitted by the firmware. -/
inductive Ev where
  | kbPress (code : Int)
  | kbRelease (code : Int)
  | kbReleaseAll
  | kbWrite (text : String)
  | consPress (code : Int)
  | consRelease
  | mouseRelease (buttons : Int)
  | stopTone
  | sleepFor (seconds : ℚ)
  | setPixel (index : Nat) (color : Nat)
  deriving DecidableEq, Repr

/-- Dictionary-shaped macro entries: the optional `buttons`, `tone` and
`test_string` fields that `execute_macro_sequence` and
`handle_special_macro` inspect. -/
structure MacroDict where
  buttons : Option Int := none
  tone : Option Int := none
  test_string : Option String := none
  deriving DecidableEq, Repr

/-- Entries inside a list-shaped macro item (a consumer batch): ints are
consumer codes, floats are delays. -/
inductive ConsumerItem where
  | code (c : Int)
  | delay (seconds : ℚ)
  deriving DecidableEq, Repr

/-- One entry of a macro sequence, tagged by the Python runtime type the
interpreter dispatches on (`int`, `float`, `str`, `list`, `dict`). -/
inductive MacroItem where
  | int (n : Int)
  | float (seconds : ℚ)
  | str (s : String)
  | list (items : List ConsumerItem)
  | dict (d : MacroDict)
  deriving DecidableEq, Repr

/-- Consumer-batch execution in the press phase of `execute_macro_sequence`
(the `isinstance(item, list)` branch): every int code is sent as a consumer
release followed by a consumer press; floats sleep. -/
def consumerBatchEvents : List ConsumerItem → List Ev
  | [] => []
  | .code c :: rest => Ev.consRelease :: Ev.consPress c :: consumerBatchEvents rest
  | .delay s :: rest => Ev.sleepFor s :: consumerBatchEvents rest

/-- Press-phase trace of `execute_macro_sequence` (`pressed=True`): ints press
when non-negative and release their negation otherwise, floats sleep, strings
are typed, lists run as consumer batches, dicts go to `handle_special_macro`,
which emits no output-device events (it only adjusts brightness). -/
def pressEvents : List MacroItem → List Ev
  | [] => []
  | .int n :: rest =>
      (if 0 ≤ n then [Ev.kbPress n] else [Ev.kbRelease (-n)]) ++ pressEvents rest
  | .float s :: rest => Ev.sleepFor s :: pressEvents rest
  | .str s :: rest => Ev.kbWrite s :: pressEvents rest
  | .list items :: rest => consumerBatchEvents items ++ pressEvents rest
  | .dict _ :: rest => pressEvents rest

/-- Release-phase handling of a dict item: a non-negative `buttons` field
releases the mouse buttons; otherwise a present `tone` field stops the tone. -/
def dictReleaseEvents (d : MacroDict) : List Ev :=
  match d.buttons with
  | some b =>
      if 0 ≤ b then [Ev.mouseRelease b]
      else if d.tone.isSome then [Ev.stopTone] else []
  | none => if d.tone.isSome then [Ev.stopTone] else []

/-- Loop part of the release phase of `execute_macro_sequence`
(`pressed=False`): non-negative ints are released, dicts release mouse
buttons or stop tones, everything else (floats, strings, lists) is skipped. -/
def releaseLoopEvents : List MacroItem → List Ev
  | [] => []
  | .int n :: rest => (if 0 ≤ n then [Ev.kbRelease n] else []) ++ releaseLoopEvents rest
  | .float _ :: rest => releaseLoopEvents rest
  | .str _ :: rest => releaseLoopEvents rest
  | .list _ :: rest => releaseLoopEvents rest
  | .dict d :: rest => dictReleaseEvents d ++ releaseLoopEvents rest

/-- Whole release-phase trace: the loop followed by the unconditional final
`macropad.consumer_control.release()`. -/
def releaseEvents (seq : List MacroItem) : List Ev :=
  releaseLoopEvents seq ++ [Ev.consRelease]

/-- Trace of a full press-then-release cycle of one macro sequence. -/
def pressReleaseTrace (seq : List MacroItem) : List Ev :=
  pressEvents seq ++ releaseEvents seq

/-- Number of keyboard presses of code `c` in a trace. -/
def kbPressCount (t : List Ev) (c : Int) : Nat :=
  t.countP fun e => decide (e = Ev.kbPress c)

/-- Number of keyboard releases of code `c` in a trace. -/
def kbReleaseCount (t : List Ev) (c : Int) : Nat :=
  t.countP fun e => decide (e = Ev.kbRelease c)

/-- Effect of one event on the asserted consumer code: presses replace it,
releases clear it, every other event leaves it unchanged. -/
def consStep (a : Option Int) (e : Ev) : Option Int :=
  match e with
  | Ev.consRelease => none
  | Ev.consPress c => some c
  | _ => a

/-- Tracks which consumer code is asserted after a trace, starting from an
arbitrary asserted code. -/
def consFinal (a : Option Int) (t : List Ev) : Option Int :=
  t.foldl consStep a

/-- Effect of one event on the exclusivity-checking machine: a press while
another code is asserted is a violation (`none`). -/
def consExclStep (a : Option Int) (e : Ev) : Option (Option Int) :=
  match e with
  | Ev.consRelease => some none
  | Ev.consPress c =>
      match a with
      | some _ => none
      | none => some (some c)
  | _ => some a

/-- Runs the consumer state machine and fails (`none`) if a consumer code is
pressed while another code is still asserted; otherwise returns the final
asserted code. -/
def consRunExclusive (a : Option Int) : List Ev → Option (Option Int)
  | [] => some a
  | e :: rest =>
      match consExclStep a e with
      | some a2 => consRunExclusive a2 rest
      | none => none

/-- Scans a trace and checks that every consumer press is immediately preceded
by a consumer release (`prev` is the event just before the trace, if any). -/
def eachPressPreceded : Option Ev → List Ev → Bool
  | _, [] => true
  | prev, e :: rest =>
      (match e with
       | Ev.consPress _ => decide (prev = some Ev.consRelease)
       | _ => true) && eachPressPreceded (some e) rest

/-- Reconnection rate limit `NEOKEY_RECONNECT_INTERVAL = 5.0` seconds. -/
def NEOKEY_RECONNECT_INTERVAL : ℚ := 5

/-- State of `NeoKeyManager`: connection flag, whether `self.device` is
non-None, the recorded brightness, the consecutive-failed-read counter
`_failed_reads`, and the time of the last reconnection attempt. -/
structure NKState where
  is_connected : Bool
  device : Bool
  brightness : ℚ
  failed_reads : Nat
  last_reconnect : ℚ
  deriving DecidableEq, Repr

/-- Outcome of the bulk read `digital_read_bulk(0xF0)` on the device: either
the raw bitmask or a transport error (`OSError`/`RuntimeError`/`ValueError`). -/
inductive ReadOutcome where
  | ok (bulk : Nat)
  | err
  deriving DecidableEq, Repr

/-- Key extraction of `NeoKey1x4.get_keys`: key `j` is pressed when bit
`j + 4` of the bulk read is clear. -/
def deviceKeys (bulk : Nat) : List Bool :=
  (List.range 4).map fun i => ! bulk.testBit (i + 4)

/-- Models `NeoKeyManager._connect`; `ok` says whether constructing the device
succeeded (on failure the constructor raises and the handler clears both the
device and the connection flag). -/
def connectStep (s : NKState) (ok : Bool) : NKState :=
  if ok then { s with device := true, is_connected := true, failed_reads := 0 }
  else { s with is_connected := false, device := false }

/-- Models `NeoKeyManager._try_reconnect` with its rate limit: connect only if
at least `NEOKEY_RECONNECT_INTERVAL` has elapsed since `_last_reconnect`.
Returns the new state and whether a connection attempt was made. -/
def tryReconnect (s : NKState) (now : ℚ) (ok : Bool) : NKState × Bool :=
  if NEOKEY_RECONNECT_INTERVAL ≤ now - s.last_reconnect then
    (connectStep { s with last_reconnect := now } ok, true)
  else (s, false)

/-- Result of `NeoKeyManager.get_keys`: the updated manager state, the four
key booleans, and whether a reconnection attempt was made during the call. -/
structure GetKeysResult where
  state : NKState
  keys : List Bool
  attempted : Bool
  deriving DecidableEq, Repr

/-- Models `NeoKeyManager.get_keys`: when disconnected, rate-limited reconnect
and all-false; when connected, a successful bulk read clears the failure
counter and returns the key states, while a transport error increments the
counter and, at the threshold 3, marks the manager disconnected. -/
def getKeys (s : NKState) (now : ℚ) (read : ReadOutcome) (ok : Bool) : GetKeysResult :=
  if s.is_connected then
    match read with
    | .ok bulk => ⟨{ s with failed_reads := 0 }, deviceKeys bulk, false⟩
    | .err =>
        let f := s.failed_reads + 1
        if 3 ≤ f then
          ⟨{ s with failed_reads := f, is_connected := false },
            [false, false, false, false], false⟩
        else
          ⟨{ s with failed_reads := f }, [false, false, false, false], false⟩
  else
    let r := tryReconnect s now ok
    ⟨r.1, [false, false, false, false], r.2⟩

/-- Models `NeoKeyManager.set_pixel`: the attempted pixel write is emitted
only when the manager is connected and holds a device; otherwise a no-op. -/
def setPixelEvents (s : NKState) (index : Nat) (color : Nat) : List Ev :=
  if s.is_connected && s.device then [Ev.setPixel index color] else []

/-- Models `NeoKeyManager.set_brightness`: always records the level on the
manager (the device write is best-effort and changes no manager state). -/
def nkSetBrightness (s : NKState) (b : ℚ) : NKState :=
  { s with brightness := b }

/-- State of `Debouncer`: the current and the previous sampled signal. -/
structure Debouncer where
  state : Bool
  last_state : Bool
  deriving DecidableEq, Repr

/-- Freshly constructed debouncer: both samples false. -/
def debInit : Debouncer := ⟨false, false⟩

/-- Models `Debouncer.update`: shift `state` into `last_state`, store the raw
signal. -/
def Debouncer.update (d : Debouncer) (new_state : Bool) : Debouncer :=
  { state := new_state, last_state := d.state }

/-- Models `Debouncer.is_pressed`: a rising edge, `state and not last_state`. -/
def Debouncer.is_pressed (d : Debouncer) : Bool :=
  d.state && ! d.last_state

/-- Runs a sequence of `update` calls left to right. -/
def runUpdates (d : Debouncer) (raws : List Bool) : Debouncer :=
  raws.foldl Debouncer.update d

/-- Key codes of `handle_neokey_buttons`: `Keycode.ESCAPE` (0x29) and the
consumer codes VOLUME_INCREMENT (0xE9), VOLUME_DECREMENT (0xEA), PLAY_PAUSE
(0xCD) from the HID libraries. -/
def keyMapping : List Int := [0x29, 0xE9, 0xEA, 0xCD]

/-- Pressed color `0x800080` (purple) used for the NeoKey pixels. -/
def colorPressed : Nat := 0x800080

/-- One iteration of the `for i in range(4)` loop in `handle_neokey_buttons`:
update the debouncer; on a rising edge set the pixel and emit the mapped
action (button 0: key press plus release-all; buttons 1-3: consumer release
then press); otherwise just set the pixel. -/
def neokeyStepTrace (s : NKState) (i : Nat) (d : Debouncer) (key : Bool) :
    List Ev :=
  if (d.update key).is_pressed then
    setPixelEvents s i colorPressed ++
      (if i = 0 then [Ev.kbPress 0x29, Ev.kbReleaseAll]
       else [Ev.consRelease, Ev.consPress (keyMapping.getD i 0)])
  else
    setPixelEvents s i colorPressed

/-- Debouncer result and trace of one loop iteration (the debouncer update is
unconditional; the emitted events depend on the edge). -/
def neokeyStep (s : NKState) (i : Nat) (d : Debouncer) (key : Bool) :
    Debouncer × List Ev :=
  (d.update key, neokeyStepTrace s i d key)

/-- Debouncer bank for the four NeoKey buttons. -/
structure Debs where
  d0 : Debouncer
  d1 : Debouncer
  d2 : Debouncer
  d3 : Debouncer
  deriving DecidableEq, Repr

/-- Result of one `handle_neokey_buttons` call. -/
structure HandleResult where
  debs : Debs
  state : NKState
  trace : List Ev
  deriving DecidableEq, Repr

/-- Models `handle_neokey_buttons`: read the keys through the manager, run the
four per-button steps against the post-read manager state, and finish with
the unconditional `macropad.consumer_control.release()`. -/
def handleNeokeyButtons (debs : Debs) (s : NKState) (now : ℚ)
    (read : ReadOutcome) (ok : Bool) : HandleResult :=
  let r := getKeys s now read ok
  let p0 := neokeyStep r.state 0 debs.d0 (r.keys.getD 0 false)
  let p1 := neokeyStep r.state 1 debs.d1 (r.keys.getD 1 false)
  let p2 := neokeyStep r.state 2 debs.d2 (r.keys.getD 2 false)
  let p3 := neokeyStep r.state 3 debs.d3 (r.keys.getD 3 false)
  ⟨⟨p0.1, p1.1, p2.1, p3.1⟩, r.state,
    p0.2 ++ p1.2 ++ p2.2 ++ p3.2 ++ [Ev.consRelease]⟩

/-- State of `DisplayManager`: the remembered brightness and the sleep flag. -/
structure DMState where
  brightness : ℚ
  is_asleep : Bool
  deriving DecidableEq, Repr

/-- Combined power-management state: the display manager, the applied
macropad pixel brightness, and the NeoKey manager. -/
structure SysState where
  dm : DMState
  macropadBrightness : ℚ
  nk : NKState
  deriving DecidableEq, Repr

/-- Clamp of `adjust_brightness`: `max(0.0, min(1.0, value))`. -/
def clamp01 (x : ℚ) : ℚ := max 0 (min 1 x)

/-- Models `DisplayManager.adjust_brightness`; `withNeokey` says whether a
NeoKey manager was passed (the special-macro path passes none, the ordinary
path passes the manager). -/
def adjustBrightness (st : SysState) (delta : ℚ) (withNeokey : Bool) : SysState :=
  let b := clamp01 (st.dm.brightness + delta)
  { st with
    dm := { st.dm with brightness := b }
    macropadBrightness := b
    nk := if withNeokey then nkSetBrightness st.nk b else st.nk }

/-- Models `DisplayManager.sleep_display` (with the NeoKey manager passed):
when awake, force the applied brightness to 0 on macropad and NeoKey, set the
sleep flag, and keep the remembered brightness untouched. -/
def sleepDisplay (st : SysState) : SysState :=
  if st.dm.is_asleep then st
  else
    { st with
      dm := { st.dm with is_asleep := true }
      macropadBrightness := 0
      nk := nkSetBrightness st.nk 0 }

/-- Models `DisplayManager.wake_display` (with the NeoKey manager passed):
when asleep, reapply the remembered brightness to macropad and NeoKey, clear
the sleep flag, and try to reconnect the NeoKey if it is disconnected. -/
def wakeDisplay (st : SysState) (now : ℚ) (ok : Bool) : SysState :=
  if st.dm.is_asleep then
    let nk1 := nkSetBrightness st.nk st.dm.brightness
    let nk2 := if nk1.is_connected then nk1 else (tryReconnect nk1 now ok).1
    { st with
      dm := { st.dm with is_asleep := false }
      macropadBrightness := st.dm.brightness
      nk := nk2 }
  else st

/-- Folds a list of `adjust_brightness` calls (delta, with-NeoKey flag) over
the state. -/
def applyAdjustments (st : SysState) (ds : List (ℚ × Bool)) : SysState :=
  ds.foldl (fun acc p => adjustBrightness acc p.1 p.2) st

/-- Application record loaded from a macro file: a name and a list of
(color, label, sequence) macros. -/
structure App where
  name : String
  macros : List (Nat × String × List MacroItem)

/-- Python floor-mod, the semantics of `%` on Python ints. -/
def pyMod (a n : Int) : Int := Int.fmod a n

/-- Index selection of the main loop's encoder-rotation handler:
`app_index = position % len(apps)`. -/
def switchIndex (position : Int) (apps : List App) : Int :=
  pyMod position (apps.length : Int)

/-- Outcome of the module-level guard that runs right after `load_apps`. -/
inductive StartupOutcome where
  | haltWithMessage (title : String)
  | enterMainLoop
  deriving DecidableEq, Repr

/-- Models the `if not apps:` module-level guard: an empty application list
sets the title label to "NO MACRO FILES", refreshes the display and spins
forever (`while True: pass`), so the main loop is never entered; otherwise
startup proceeds into the main loop. -/
def startupGate (apps : List App) : StartupOutcome :=
  if apps.isEmpty then .haltWithMessage "NO MACRO FILES" else .enterMainLoop

/-! Helper lemmas. -/

theorem runUpdates_state (d : Debouncer) (raws : List Bool) :
    (runUpdates d raws).state = raws.getLastD d.state := by
  induction raws generalizing d with
  | nil => rfl
  | cons r rest ih =>
      simp only [runUpdates, List.foldl_cons, List.getLastD_cons]
      simpa [Debouncer.update] using ih (d.update r)

/-! C8. -/

/-- C8: for every Debouncer and every sequence of `update(raw)` calls,
`is_pressed()` is true exactly on the update where the signal transitions
false to true, and false on all other updates (in particular while the input
stays true across consecutive updates): after running any earlier inputs and
one more input `x`, the edge is `x` and not the previous sample. -/
theorem debouncer_rising_edge_only (pre : List Bool) (x : Bool) :
    (runUpdates debInit (pre ++ [x])).is_pressed = (x && ! pre.getLastD false) := by
  have h : runUpdates debInit (pre ++ [x]) = (runUpdates debInit pre).update x := by
    simp [runUpdates]
  rw [h]
  simp [Debouncer.update, Debouncer.is_pressed, runUpdates_state, debInit]

/-! C5. -/

/-- C5: application switching wraps by mathematically-correct modulo: for a
nonempty application list and any integer encoder position (negative values
included), the selected index is the mathematical `position mod N`, always in
range `[0, N-1]`. -/
theorem encoder_switch_wraps (position : Int) (apps : List App)
    (h : 0 < apps.length) :
    switchIndex position apps = position % (apps.length : Int) ∧
    0 ≤ switchIndex position apps ∧
    switchIndex position apps < (apps.length : Int) := by
  have hn : (0 : Int) < (apps.length : Int) := by exact_mod_cast h
  have he : switchIndex position apps = position % (apps.length : Int) := by
    unfold switchIndex pyMod
    exact Int.fmod_eq_emod _ (le_of_lt hn)
  refine ⟨he, ?_, ?_⟩
  · rw [he]; exact Int.emod_nonneg _ (ne_of_gt hn)
  · rw [he]; exact Int.emod_lt_of_pos _ hn

/-- Witness application list with three entries. -/
def appsW : List App := [⟨"alpha", []⟩, ⟨"beta", []⟩, ⟨"gamma", []⟩]

/-- Witness for C5 at the negative encoder position -4 over 3 applications. -/
theorem encoder_switch_wraps_witness :
    0 < appsW.length ∧
    (switchIndex (-4) appsW = (-4 : Int) % (appsW.length : Int) ∧
      0 ≤ switchIndex (-4) appsW ∧ switchIndex (-4) appsW < (appsW.length : Int)) :=
  ⟨by decide, encoder_switch_wraps (-4) appsW (by decide)⟩

/-! C7. -/

/-- C7: an empty application set is fatal to interactive operation: the guard
sets the fixed "NO MACRO FILES" title and halts, and the main loop is never
entered. -/
theorem empty_apps_halts (apps : List App) (h : apps = []) :
    startupGate apps = StartupOutcome.haltWithMessage "NO MACRO FILES" ∧
    startupGate apps ≠ StartupOutcome.enterMainLoop := by
  subst h
  exact ⟨rfl, by decide⟩

/-- Witness for C7 at the empty list. -/
theorem empty_apps_halts_witness :
    startupGate [] = StartupOutcome.haltWithMessage "NO MACRO FILES" ∧
    startupGate [] ≠ StartupOutcome.enterMainLoop :=
  empty_apps_halts [] rfl

/-! C2: sleep/wake round trip. -/

theorem adjustBrightness_asleep (st : SysState) (delta : ℚ) (w : Bool) :
    (adjustBrightness st delta w).dm.is_asleep = st.dm.is_asleep := rfl

theorem applyAdjustments_asleep (ds : List (ℚ × Bool)) (st : SysState) :
    (applyAdjustments st ds).dm.is_asleep = st.dm.is_asleep := by
  induction ds generalizing st with
  | nil => rfl
  | cons d rest ih =>
      simpa [applyAdjustments, adjustBrightness_asleep]
        using ih (adjustBrightness st d.1 d.2)

theorem tryReconnect_brightness (s : NKState) (now : ℚ) (ok : Bool) :
    (tryReconnect s now ok).1.brightness = s.brightness := by
  unfold tryReconnect connectStep
  split
  · split <;> rfl
  · rfl

/-- C2: a sleep/wake round trip preserves brightness.  After any sequence of
brightness adjustments from an awake state, `sleep_display` remembers the
current brightness while forcing the applied level on the macropad and NeoKey
to 0, and `wake_display` reapplies the remembered value verbatim to both. -/
theorem sleep_wake_round_trip (st0 : SysState) (ds : List (ℚ × Bool))
    (now : ℚ) (ok : Bool) (h : st0.dm.is_asleep = false) :
    (sleepDisplay (applyAdjustments st0 ds)).dm.brightness
        = (applyAdjustments st0 ds).dm.brightness ∧
    (sleepDisplay (applyAdjustments st0 ds)).macropadBrightness = 0 ∧
    (sleepDisplay (applyAdjustments st0 ds)).nk.brightness = 0 ∧
    (wakeDisplay (sleepDisplay (applyAdjustments st0 ds)) now ok).macropadBrightness
        = (applyAdjustments st0 ds).dm.brightness ∧
    (wakeDisplay (sleepDisplay (applyAdjustments st0 ds)) now ok).nk.brightness
        = (applyAdjustments st0 ds).dm.brightness ∧
    (wakeDisplay (sleepDisplay (applyAdjustments st0 ds)) now ok).dm.is_asleep = false := by
  have h1 : (applyAdjustments st0 ds).dm.is_asleep = false := by
    rw [applyAdjustments_asleep, h]
  refine ⟨?_, ?_, ?_, ?_, ?_, ?_⟩ <;>
    simp only [sleepDisplay, wakeDisplay, nkSetBrightness, h1, Bool.false_eq_true,
      if_false, if_true] <;>
    split <;>
    simp [tryReconnect_brightness]

/-- Witness system state: awake, brightness 1/10, NeoKey connected. -/
def sysW : SysState := ⟨⟨1/10, false⟩, 1/10, ⟨true, true, 1/10, 0, 0⟩⟩

/-- Witness for C2: one +1/4 adjustment, then sleep, then wake. -/
theorem sleep_wake_round_trip_witness :
    sysW.dm.is_asleep = false ∧
    (wakeDisplay (sleepDisplay (applyAdjustments sysW [(1/4, true)])) 0 true).macropadBrightness
      = (applyAdjustments sysW [(1/4, true)]).dm.brightness :=
  ⟨rfl, (sleep_wake_round_trip sysW [(1/4, true)] 0 true rfl).2.2.2.1⟩

/-! C1: resilience manager read transitions. -/

/-- C1: while Connected, a successful bulk read resets the failure counter to
0 and returns the 4 key states; a transport error increments the counter and
returns all-false, leaving the manager Connected below the threshold 3 and
Disconnected once the counter reaches 3; while Disconnected every call
returns all-false, and a successful reconnection flips the state back to
Connected with the counter reset to 0. -/
theorem resilience_read_transitions (s : NKState) (now : ℚ) (bulk : Nat)
    (ok : Bool) (hconn : s.is_connected = true) :
    (getKeys s now (.ok bulk) ok).keys = deviceKeys bulk ∧
    (getKeys s now (.ok bulk) ok).state.failed_reads = 0 ∧
    (getKeys s now (.ok bulk) ok).state.is_connected = true ∧
    (getKeys s now .err ok).keys = [false, false, false, false] ∧
    (getKeys s now .err ok).state.failed_reads = s.failed_reads + 1 ∧
    (s.failed_reads + 1 < 3 → (getKeys s now .err ok).state.is_connected = true) ∧
    (3 ≤ s.failed_reads + 1 → (getKeys s now .err ok).state.is_connected = false) ∧
    (∀ (s2 : NKState) (n2 : ℚ) (r2 : ReadOutcome) (o2 : Bool),
      s2.is_connected = false →
      (getKeys s2 n2 r2 o2).keys = [false, false, false, false]) ∧
    (∀ (s2 : NKState) (n2 : ℚ) (r2 : ReadOutcome),
      s2.is_connected = false →
      NEOKEY_RECONNECT_INTERVAL ≤ n2 - s2.last_reconnect →
      (getKeys s2 n2 r2 true).state.is_connected = true ∧
      (getKeys s2 n2 r2 true).state.failed_reads = 0) := by
  refine ⟨?_, ?_, ?_, ?_, ?_, ?_, ?_, ?_, ?_⟩
  · simp [getKeys, hconn]
  · simp [getKeys, hconn]
  · simp [getKeys, hconn]
  · simp only [getKeys, hconn, if_true]
    split <;> rfl
  · simp only [getKeys, hconn, if_true]
    split <;> rfl
  · intro h3
    simp only [getKeys, hconn, if_true]
    rw [if_neg (by omega)]
  · intro h3
    simp only [getKeys, hconn, if_true]
    rw [if_pos h3]
  · intro s2 n2 r2 o2 h2
    simp [getKeys, h2]
  · intro s2 n2 r2 h2 h5
    simp [getKeys, h2, tryReconnect, h5, connectStep]

/-- Witness NeoKey manager state: connected, counter 0. -/
def nkW : NKState := ⟨true, true, 0, 0, 0⟩

/-- Witness for C1 at a connected state and a clean bulk read. -/
theorem resilience_read_transitions_witness :
    nkW.is_connected = true ∧ (getKeys nkW 0 (.ok 0) true).keys = deviceKeys 0 :=
  ⟨rfl, (resilience_read_transitions nkW 0 0 true rfl).1⟩

/-! C6: rate-limited reconnection. -/

/-- C6: while Disconnected, a key-read call attempts reconnection exactly when
at least the fixed 5-second interval has elapsed since the last attempt (and
then records the attempt time); a call made sooner leaves the manager state
untouched and makes no attempt; in either case the call returns all-false. -/
theorem reconnect_rate_limited (s : NKState) (now : ℚ) (read : ReadOutcome)
    (ok : Bool) (hdis : s.is_connected = false) :
    NEOKEY_RECONNECT_INTERVAL = 5 ∧
    (NEOKEY_RECONNECT_INTERVAL ≤ now - s.last_reconnect →
      (getKeys s now read ok).attempted = true ∧
      (getKeys s now read ok).state.last_reconnect = now) ∧
    (now - s.last_reconnect < NEOKEY_RECONNECT_INTERVAL →
      (getKeys s now read ok).attempted = false ∧
      (getKeys s now read ok).state = s) ∧
    (getKeys s now read ok).keys = [false, false, false, false] := by
  refine ⟨rfl, ?_, ?_, by simp [getKeys, hdis]⟩
  · intro h5
    constructor
    · simp [getKeys, hdis, tryReconnect, h5]
    · simp only [getKeys, hdis, Bool.false_eq_true, if_false, tryReconnect, if_pos h5]
      unfold connectStep
      split <;> rfl
  · intro h5
    have h5n : ¬ NEOKEY_RECONNECT_INTERVAL ≤ now - s.last_reconnect := not_le.mpr h5
    constructor
    · simp [getKeys, hdis, tryReconnect, h5n]
    · simp [getKeys, hdis, tryReconnect, h5n]

/-- Witness disconnected NeoKey manager state. -/
def nkDisW : NKState := ⟨false, false, 0, 0, 0⟩

/-- Witness for C6: a disconnected manager, 5 seconds after the last attempt,
does attempt a reconnection. -/
theorem reconnect_rate_limited_witness :
    nkDisW.is_connected = false ∧ (getKeys nkDisW 5 .err true).attempted = true :=
  ⟨rfl, ((reconnect_rate_limited nkDisW 5 .err true rfl).2.1 (by norm_num [NEOKEY_RECONNECT_INTERVAL, nkDisW])).1⟩

/-! C3: press/release balance of the interpreter. -/

theorem kbPressCount_append (t1 t2 : List Ev) (c : Int) :
    kbPressCount (t1 ++ t2) c = kbPressCount t1 c + kbPressCount t2 c := by
  simp [kbPressCount]

theorem kbReleaseCount_append (t1 t2 : List Ev) (c : Int) :
    kbReleaseCount (t1 ++ t2) c = kbReleaseCount t1 c + kbReleaseCount t2 c := by
  simp [kbReleaseCount]

theorem kbPressCount_cons (e : Ev) (t : List Ev) (c : Int) :
    kbPressCount (e :: t) c = kbPressCount t c + (if e = Ev.kbPress c then 1 else 0) := by
  simp [kbPressCount, List.countP_cons]

theorem kbReleaseCount_cons (e : Ev) (t : List Ev) (c : Int) :
    kbReleaseCount (e :: t) c = kbReleaseCount t c + (if e = Ev.kbRelease c then 1 else 0) := by
  simp [kbReleaseCount, List.countP_cons]

theorem kbPressCount_batch (items : List ConsumerItem) (c : Int) :
    kbPressCount (consumerBatchEvents items) c = 0 := by
  induction items with
  | nil => rfl
  | cons it rest ih =>
      cases it with
      | code c2 => simp [consumerBatchEvents, kbPressCount_cons, ih]
      | delay s => simp [consumerBatchEvents, kbPressCount_cons, ih]

theorem kbPressCount_dictRelease (d : MacroDict) (c : Int) :
    kbPressCount (dictReleaseEvents d) c = 0 := by
  rcases hb : d.buttons with _ | b <;>
    simp only [dictReleaseEvents, hb] <;>
    split_ifs <;>
    simp [kbPressCount_cons, kbPressCount]

theorem kbPressCount_releaseLoop (seq : List MacroItem) (c : Int) :
    kbPressCount (releaseLoopEvents seq) c = 0 := by
  induction seq with
  | nil => rfl
  | cons it rest ih =>
      cases it with
      | int n =>
          by_cases hn : 0 ≤ n
          · have hr : releaseLoopEvents (MacroItem.int n :: rest)
                = Ev.kbRelease n :: releaseLoopEvents rest := by
              simp [releaseLoopEvents, hn]
            rw [hr, kbPressCount_cons, ih]
            simp
          · have hr : releaseLoopEvents (MacroItem.int n :: rest)
                = releaseLoopEvents rest := by
              simp [releaseLoopEvents, hn]
            rw [hr]
            exact ih
      | float s => simpa [releaseLoopEvents] using ih
      | str s => simpa [releaseLoopEvents] using ih
      | list items => simpa [releaseLoopEvents] using ih
      | dict d =>
          have hr : releaseLoopEvents (MacroItem.dict d :: rest)
              = dictReleaseEvents d ++ releaseLoopEvents rest := by
            simp [releaseLoopEvents]
          rw [hr, kbPressCount_append, ih, kbPressCount_dictRelease]

theorem press_le_release_loop (seq : List MacroItem) (c : Int) :
    kbPressCount (pressEvents seq) c ≤ kbReleaseCount (releaseLoopEvents seq) c := by
  induction seq with
  | nil => simp [pressEvents, releaseLoopEvents, kbPressCount, kbReleaseCount]
  | cons it rest ih =>
      cases it with
      | int n =>
          by_cases hn : 0 ≤ n
          · have hp : pressEvents (MacroItem.int n :: rest)
                = Ev.kbPress n :: pressEvents rest := by
              simp [pressEvents, hn]
            have hr : releaseLoopEvents (MacroItem.int n :: rest)
                = Ev.kbRelease n :: releaseLoopEvents rest := by
              simp [releaseLoopEvents, hn]
            rw [hp, hr, kbPressCount_cons, kbReleaseCount_cons]
            by_cases hnc : n = c
            · subst hnc
              simp only [if_pos rfl]
              omega
            · simp only [Ev.kbPress.injEq, Ev.kbRelease.injEq, hnc, if_false]
              omega
          · have hp : pressEvents (MacroItem.int n :: rest)
                = Ev.kbRelease (-n) :: pressEvents rest := by
              simp [pressEvents, hn]
            have hr : releaseLoopEvents (MacroItem.int n :: rest)
                = releaseLoopEvents rest := by
              simp [releaseLoopEvents, hn]
            rw [hp, hr, kbPressCount_cons]
            simp only [show Ev.kbRelease (-n) ≠ Ev.kbPress c from by simp, if_false]
            omega
      | float s =>
          have hp : pressEvents (MacroItem.float s :: rest)
              = Ev.sleepFor s :: pressEvents rest := by
            simp [pressEvents]
          rw [hp, kbPressCount_cons]
          have hr : releaseLoopEvents (MacroItem.float s :: rest)
              = releaseLoopEvents rest := by
            simp [releaseLoopEvents]
          rw [hr]
          simp only [show Ev.sleepFor s ≠ Ev.kbPress c from by simp, if_false]
          omega
      | str s =>
          have hp : pressEvents (MacroItem.str s :: rest)
              = Ev.kbWrite s :: pressEvents rest := by
            simp [pressEvents]
          rw [hp, kbPressCount_cons]
          have hr : releaseLoopEvents (MacroItem.str s :: rest)
              = releaseLoopEvents rest := by
            simp [releaseLoopEvents]
          rw [hr]
          simp only [show Ev.kbWrite s ≠ Ev.kbPress c from by simp, if_false]
          omega
      | list items =>
          have hp : pressEvents (MacroItem.list items :: rest)
              = consumerBatchEvents items ++ pressEvents rest := by
            simp [pressEvents]
          have hr : releaseLoopEvents (MacroItem.list items :: rest)
              = releaseLoopEvents rest := by
            simp [releaseLoopEvents]
          rw [hp, hr, kbPressCount_append, kbPressCount_batch]
          omega
      | dict d =>
          have hp : pressEvents (MacroItem.dict d :: rest)
              = pressEvents rest := by
            simp [pressEvents]
          have hr : releaseLoopEvents (MacroItem.dict d :: rest)
              = dictReleaseEvents d ++ releaseLoopEvents rest := by
            simp [releaseLoopEvents]
          rw [hp, hr, kbReleaseCount_append]
          omega

/-- C3: for every macro sequence containing a KeyPress entry `k` followed
later by the matching KeyRelease entry `-k`, executing the press phase and
then the release phase leaves no key code logically held: for every key code,
the number of keyboard releases in the combined trace reaches the number of
keyboard presses. -/
theorem macro_release_covers_presses (seq : List MacroItem) (k : Int)
    (hk : ∃ i j, i < j ∧ j < seq.length ∧
      seq.getD i (MacroItem.int (-1)) = MacroItem.int k ∧ 0 ≤ k ∧
      seq.getD j (MacroItem.int (-1)) = MacroItem.int (-k)) :
    ∀ c : Int, kbPressCount (pressReleaseTrace seq) c
      ≤ kbReleaseCount (pressReleaseTrace seq) c := by
  intro c
  have h1 := press_le_release_loop seq c
  have h2 := kbPressCount_releaseLoop seq c
  have h3 : kbPressCount [Ev.consRelease] c = 0 := by
    simp [kbPressCount_cons, kbPressCount]
  calc kbPressCount (pressReleaseTrace seq) c
      = kbPressCount (pressEvents seq) c := by
        rw [pressReleaseTrace, releaseEvents, kbPressCount_append,
          kbPressCount_append, h2, h3]
        omega
    _ ≤ kbReleaseCount (releaseLoopEvents seq) c := h1
    _ ≤ kbReleaseCount (pressReleaseTrace seq) c := by
        rw [pressReleaseTrace, releaseEvents, kbReleaseCount_append,
          kbReleaseCount_append]
        omega

/-- Witness sequence for C3: press 5, release 5, a consumer batch, a delay. -/
def seqW : List MacroItem :=
  [MacroItem.int 5, MacroItem.float 1, MacroItem.int (-5),
   MacroItem.list [ConsumerItem.code 205]]

/-- Witness for C3 at the concrete sequence, checked for code 5. -/
theorem macro_release_covers_presses_witness :
    kbPressCount (pressReleaseTrace seqW) 5 ≤ kbReleaseCount (pressReleaseTrace seqW) 5 :=
  macro_release_covers_presses seqW 5
    ⟨0, 2, by decide, by decide, by decide, by decide, by decide⟩ 5

/-! C4: consumer-code exclusivity in the press phase. -/

theorem consRunExclusive_append (xs ys : List Ev) (a : Option Int) :
    consRunExclusive a (xs ++ ys)
      = (consRunExclusive a xs).bind fun a2 => consRunExclusive a2 ys := by
  induction xs generalizing a with
  | nil => rfl
  | cons e rest ih =>
      simp only [List.cons_append, consRunExclusive]
      cases h : consExclStep a e with
      | none => rfl
      | some a2 => simp [ih]

theorem consRunExclusive_batch (items : List ConsumerItem) (a : Option Int) :
    ∃ a2, consRunExclusive a (consumerBatchEvents items) = some a2 := by
  induction items generalizing a with
  | nil => exact ⟨a, rfl⟩
  | cons it rest ih =>
      cases it with
      | code c =>
          simpa [consumerBatchEvents, consRunExclusive, consExclStep] using ih (some c)
      | delay s =>
          simpa [consumerBatchEvents, consRunExclusive, consExclStep] using ih a

theorem consRunExclusive_pressEvents (seq : List MacroItem) (a : Option Int) :
    ∃ a2, consRunExclusive a (pressEvents seq) = some a2 := by
  induction seq generalizing a with
  | nil => exact ⟨a, rfl⟩
  | cons it rest ih =>
      cases it with
      | int n =>
          by_cases hn : 0 ≤ n <;>
            simpa [pressEvents, hn, consRunExclusive, consExclStep] using ih a
      | float s => simpa [pressEvents, consRunExclusive, consExclStep] using ih a
      | str s => simpa [pressEvents, consRunExclusive, consExclStep] using ih a
      | list items =>
          simp only [pressEvents]
          rw [consRunExclusive_append]
          obtain ⟨a2, h2⟩ := consRunExclusive_batch items a
          rw [h2]
          simpa using ih a2
      | dict d => simpa [pressEvents] using ih a

theorem eachPressPreceded_batch (items : List ConsumerItem) (tail : List Ev)
    (h : ∀ p : Option Ev, eachPressPreceded p tail = true) :
    ∀ p : Option Ev, eachPressPreceded p (consumerBatchEvents items ++ tail) = true := by
  induction items with
  | nil => simpa [consumerBatchEvents] using h
  | cons it rest ih =>
      intro p
      cases it with
      | code c =>
          simpa [consumerBatchEvents, eachPressPreceded]
            using ih (some (Ev.consPress c))
      | delay s =>
          simpa [consumerBatchEvents, eachPressPreceded]
            using ih (some (Ev.sleepFor s))

theorem eachPressPreceded_pressEvents (seq : List MacroItem) :
    ∀ p : Option Ev, eachPressPreceded p (pressEvents seq) = true := by
  induction seq with
  | nil => intro p; rfl
  | cons it rest ih =>
      intro p
      cases it with
      | int n =>
          by_cases hn : 0 ≤ n <;>
            simp [pressEvents, hn, eachPressPreceded, ih]
      | float s => simp [pressEvents, eachPressPreceded, ih]
      | str s => simp [pressEvents, eachPressPreceded, ih]
      | list items =>
          simpa [pressEvents] using eachPressPreceded_batch items (pressEvents rest) ih p
      | dict d => simpa [pressEvents] using ih p

/-- C4: consumer-code exclusivity: in the press-phase trace of any macro
sequence, every consumer-code press is immediately preceded by a consumer
release, and running the exclusivity-checking machine from any initially
asserted code never observes two codes asserted simultaneously. -/
theorem consumer_code_exclusive (seq : List MacroItem) :
    ∀ (a : Option Int) (p : Option Ev),
      eachPressPreceded p (pressEvents seq) = true ∧
      (consRunExclusive a (pressEvents seq)).isSome = true := by
  intro a p
  refine ⟨eachPressPreceded_pressEvents seq p, ?_⟩
  obtain ⟨a2, h2⟩ := consRunExclusive_pressEvents seq a
  simp [h2]

/-! C9: the satellite handler always ends with a consumer release. -/

theorem getLast_concat_consRelease (xs : List Ev) :
    (xs ++ [Ev.consRelease]).getLast? = some Ev.consRelease :=
  List.getLast?_concat xs

theorem consFinal_concat_consRelease (xs : List Ev) (a : Option Int) :
    consFinal a (xs ++ [Ev.consRelease]) = none := by
  unfold consFinal
  rw [List.foldl_append]
  rfl

/-- C9: every call to `handle_neokey_buttons` ends with an unconditional
consumer-code release after processing all 4 buttons, regardless of the
button states or the connection state: its trace ends with a consumer
release, and after the trace no consumer code remains asserted, whatever
code was asserted before. -/
theorem satellite_handler_clears_consumer (debs : Debs) (s : NKState)
    (now : ℚ) (read : ReadOutcome) (ok : Bool) :
    (handleNeokeyButtons debs s now read ok).trace.getLast? = some Ev.consRelease ∧
    ∀ a : Option Int, consFinal a (handleNeokeyButtons debs s now read ok).trace = none := by
  constructor
  · exact getLast_concat_consRelease _
  · intro a
    exact consFinal_concat_consRelease _ a

/-! C10: satellite pixel colors. -/

theorem getKeys_device_connected (s : NKState) (now : ℚ) (read : ReadOutcome)
    (ok : Bool) (h : s.is_connected = true) :
    (getKeys s now read ok).state.device = s.device := by
  cases read with
  | ok bulk => simp [getKeys, h]
  | err =>
      simp only [getKeys, h, if_true]
      split <;> rfl

theorem neokeyStep_pixel_mem (s : NKState) (i : Nat) (d : Debouncer)
    (key : Bool) (hc : s.is_connected = true) (hd : s.device = true) :
    Ev.setPixel i colorPressed ∈ (neokeyStep s i d key).2 := by
  show Ev.setPixel i colorPressed ∈ neokeyStepTrace s i d key
  unfold neokeyStepTrace
  split_ifs <;> simp [setPixelEvents, hc, hd]

theorem neokeyStep_pixel_color (s : NKState) (i : Nat) (d : Debouncer)
    (key : Bool) (j c : Nat)
    (h : Ev.setPixel j c ∈ (neokeyStep s i d key).2) : c = colorPressed := by
  have h2 : Ev.setPixel j c ∈ neokeyStepTrace s i d key := h
  unfold neokeyStepTrace setPixelEvents at h2
  split_ifs at h2 <;> simp_all

/-- C10 (amended): on every call to `handle_neokey_buttons` with the
satellite Connected (hence holding a device) that is still Connected after
the key read — that is, the read did not hit the 3-failure disconnect
threshold — each of the 4 satellite pixels is set to the fixed pressed color
0x800080, in both the edge-detected branch and the no-edge branch, and the
handler never sets a satellite pixel to any other color. -/
theorem satellite_pixels_pressed_color (debs : Debs) (s : NKState) (now : ℚ)
    (read : ReadOutcome) (ok : Bool)
    (hconn : s.is_connected = true) (hdev : s.device = true)
    (hstill : (getKeys s now read ok).state.is_connected = true) :
    (∀ i, i < 4 →
      Ev.setPixel i colorPressed ∈ (handleNeokeyButtons debs s now read ok).trace) ∧
    ∀ j c, Ev.setPixel j c ∈ (handleNeokeyButtons debs s now read ok).trace →
      c = colorPressed := by
  have hrdev : (getKeys s now read ok).state.device = true := by
    rw [getKeys_device_connected s now read ok hconn]
    exact hdev
  constructor
  · intro i hi
    simp only [handleNeokeyButtons, List.mem_append]
    interval_cases i
    · exact Or.inl (Or.inl (Or.inl (Or.inl
        (neokeyStep_pixel_mem _ 0 _ _ hstill hrdev))))
    · exact Or.inl (Or.inl (Or.inl (Or.inr
        (neokeyStep_pixel_mem _ 1 _ _ hstill hrdev))))
    · exact Or.inl (Or.inl (Or.inr
        (neokeyStep_pixel_mem _ 2 _ _ hstill hrdev)))
    · exact Or.inl (Or.inr (neokeyStep_pixel_mem _ 3 _ _ hstill hrdev))
  · intro j c h
    simp only [handleNeokeyButtons, List.mem_append] at h
    rcases h with ((((h | h) | h) | h) | h)
    · exact neokeyStep_pixel_color _ 0 _ _ j c h
    · exact neokeyStep_pixel_color _ 1 _ _ j c h
    · exact neokeyStep_pixel_color _ 2 _ _ j c h
    · exact neokeyStep_pixel_color _ 3 _ _ j c h
    · simp at h

/-- Witness debouncer bank: all four freshly constructed. -/
def debsW : Debs := ⟨debInit, debInit, debInit, debInit⟩

/-- Witness for C10 (amended): connected manager, clean bulk read, pixel 2. -/
theorem satellite_pixels_pressed_color_witness :
    nkW.is_connected = true ∧
    Ev.setPixel 2 colorPressed ∈ (handleNeokeyButtons debsW nkW 0 (.ok 0) true).trace :=
  ⟨rfl, (satellite_pixels_pressed_color debsW nkW 0 (.ok 0) true rfl rfl rfl).1
    2 (by decide)⟩

/-- Witness NeoKey state refuting C10 as stated: connected at entry with two
consecutive failures already recorded. -/
def nkCEx : NKState := ⟨true, true, 0, 2, 0⟩

/-- Counterexample to C10 as stated: a call made while Connected (with two
prior consecutive read failures) whose bulk read raises a transport error
sets no satellite pixel at all — in particular pixel 0 is not set to
0x800080 — because the read trips the disconnect threshold before the pixel
writes. -/
theorem satellite_pixels_counterexample :
    nkCEx.is_connected = true ∧
    Ev.setPixel 0 colorPressed ∉ (handleNeokeyButtons debsW nkCEx 0 .err true).trace :=
  ⟨rfl, by decide⟩

end MacroPadFw
